import Mathlib

/-!
Verification development for the rightmove-hmo-monitor repository.

The definitions below are a shallow embedding of the opportunity-detection and
matching pipeline of `hmo_investment_finder (2).py` (the RSS variant, the file
cited by the claims; the scraper variant shares the same logic for the parts
treated here).  Free text is modelled as `List Char` / `String`; Python `None`
or empty-string ("falsy") cells are modelled with `Option` or the empty string
as noted at each definition; the Python `set` is modelled as a duplicate-free
`List` maintained by membership-checked insertion (only membership and
cardinality of these sets are ever observed, so insertion order is
irrelevant); Python `dict` (insertion-ordered) is modelled as an association
`List` updated in place with append-on-miss.
-/

/-- Characters matched by the Python regex class `\s` (ASCII model:
space, tab, newline, carriage return, vertical tab, form feed). -/
def pySpaces : List Char := [' ', '\t', '\n', '\r', Char.ofNat 11, Char.ofNat 12]

/-- Boolean test for `\s`. -/
def isPySpace (c : Char) : Bool := decide (c ∈ pySpaces)

/-- Characters matched by the regex class `[A-G]` under `re.IGNORECASE`
(ASCII model). -/
def gradeChars : List Char :=
  ['A', 'B', 'C', 'D', 'E', 'F', 'G', 'a', 'b', 'c', 'd', 'e', 'f', 'g']

/-- Boolean test for the case-insensitive `[A-G]` class. -/
def isGradeChar (c : Char) : Bool := decide (c ∈ gradeChars)

/-- Python substring containment `p in s` on character lists. -/
def isSubstr (p : List Char) : List Char → Bool
  | [] => p.isEmpty
  | c :: cs => p.isPrefixOf (c :: cs) || isSubstr p cs

/-- Model of `str.lower()` (ASCII model). -/
def lowerL (l : List Char) : List Char := l.map Char.toLower

/-- Final step of the regex `EPC\s+(?:rating\s+)?([A-G])`: capture a single
grade letter at the head of the remaining text. -/
def matchGrade : List Char → Option Char
  | [] => none
  | c :: _ => if isGradeChar c then some c else none

/-- The token `rating` as characters. -/
def ratingChars : List Char := ['r', 'a', 't', 'i', 'n', 'g']

/-- Matcher for the part `\s+(?:rating\s+)?([A-G])` of the EPC regex,
starting right after the literal `EPC`.  Leftmost-greedy backtracking
collapses to this deterministic form: both continuations of `\s+` start
with a non-space character (`r` of `rating`, or a grade letter), so the
maximal space run is forced; likewise inside the optional group; and when
the optional group consumed `rating` but the final `[A-G]` fails, the
fallback tries `[A-G]` at the letter `r`, which always fails. -/
def matchTail : List Char → Option Char
  | [] => none
  | c :: rest =>
    if isPySpace c then
      if ratingChars.isPrefixOf (lowerL (rest.dropWhile isPySpace)) then
        match (rest.dropWhile isPySpace).drop 6 with
        | c2 :: rest2 =>
          if isPySpace c2 then matchGrade (rest2.dropWhile isPySpace) else none
        | [] => none
      else matchGrade (rest.dropWhile isPySpace)
    else none

/-- Attempt the full EPC regex at the current position: the literal `EPC`
(case-insensitive) followed by `matchTail`. -/
def matchAtEPC : List Char → Option Char
  | e :: p :: c :: rest =>
    if e.toLower == 'e' && p.toLower == 'p' && c.toLower == 'c' then matchTail rest
    else none
  | _ => none

/-- `re.search` scan for the EPC regex: try each start position from the
left, return the first captured grade letter. -/
def findEPC : List Char → Option Char
  | [] => none
  | c :: cs =>
    match matchAtEPC (c :: cs) with
    | some g => some g
    | none => findEPC cs

/-- `extract_epc_rating` (lines 140-155): search the description for
`EPC\s+(?:rating\s+)?([A-G])` (IGNORECASE), return the captured letter
uppercased; otherwise return the sentinel when the lowercased text contains
`energy efficiency`; otherwise `none`. -/
def extract_epc_rating (description : String) : Option String :=
  match findEPC description.toList with
  | some c => some (String.singleton c.toUpper)
  | none =>
    if isSubstr (String.toList ("energy efficiency")) (lowerL description.toList) then
      some ("Unknown (mentioned)")
    else none

/-- `is_low_epc` (lines 157-161): false for falsy values (Python `None` is
modelled by `none`, the empty string keeps its own branch) and for the
sentinel, else membership in D/E/F/G. -/
def is_low_epc (epc : Option String) : Bool :=
  match epc with
  | none => false
  | some s =>
    if s == "" || s == "Unknown (mentioned)" then false
    else decide (s ∈ (["D", "E", "F", "G"] : List String))

/-- Decimal parse of a digit run, modelling Python `int`. -/
def digitsToNat (l : List Char) : Nat :=
  l.foldl (fun a c => a * 10 + (c.toNat - 48)) 0

/-- `re.search` for `(\d+)\s+bed` (lines 104-106).  At a start position the
leftmost-greedy semantics force the maximal digit run (shorter choices put
`\s` on a digit) and the maximal space run (shorter choices put `b` on a
space); the captured group is the digit run, parsed by `int`. -/
def findBed : List Char → Option Nat
  | [] => none
  | c :: cs =>
    if c.isDigit then
      let run := (c :: cs).takeWhile Char.isDigit
      let rest := (c :: cs).drop run.length
      let sp := rest.takeWhile isPySpace
      if 1 ≤ sp.length ∧ (['b', 'e', 'd'].isPrefixOf (rest.drop sp.length)) then
        some (digitsToNat run)
      else findBed cs
    else findBed cs

/-- A single-quote character, used by the reason strings built with
f-string single quotes in the source. -/
def squote : String := String.singleton (Char.ofNat 39)

/-- Reason string `Mentions <kw>` with the keyword in single quotes. -/
def mentionsReason (kw : String) : String := "Mentions " ++ squote ++ kw ++ squote

/-- The keyword table `hmo_keywords` (lines 115-124), in Python dict
insertion order. -/
def hmo_keywords : List (String × Nat) :=
  [("student", 10), ("sharers", 15), ("hmo", 30), ("rental income", 15),
   ("investment", 10), ("multi", 10), ("separate", 5), ("ensuite", 10)]

/-- One iteration of the keyword loop (lines 126-129): add the weight and
append the reason when the keyword occurs in the scanned text. -/
def keywordStep (d : List Char) (acc : Nat × List String) (kw : String × Nat) :
    Nat × List String :=
  if isSubstr kw.1.toList d then (acc.1 + kw.2, acc.2 ++ [mentionsReason kw.1]) else acc

/-- `assess_hmo_potential` (lines 95-138): lowercase title and description,
score the bedroom tier from `(\d+)\s+bed` over `title + ' ' + description`,
fold the keyword table over the description, then the property-type bonuses
(`house` with no reason; `terraced`/`terrace` with a reason). -/
def assess_hmo_potential (title description : String) : Nat × List String :=
  let d := lowerL description.toList
  let t := lowerL title.toList
  let base : Nat × List String :=
    match findBed (t ++ (' ' :: d)) with
    | some beds =>
      if 5 ≤ beds then (30, [Nat.repr beds ++ " bedrooms (excellent for HMO)"])
      else if 3 ≤ beds then (20, [Nat.repr beds ++ " bedrooms (good for HMO)"])
      else (0, [])
    | none => (0, [])
  let afterK := hmo_keywords.foldl (keywordStep d) base
  let afterH :=
    if isSubstr (String.toList ("house")) d then (afterK.1 + 5, afterK.2) else afterK
  if isSubstr (String.toList ("terraced")) d || isSubstr (String.toList ("terrace")) d then
    (afterH.1 + 5, afterH.2 ++ ["Terraced house (good for HMO conversion)"])
  else afterH

/-- Matcher for the postcode regex tail `\d+\s*\d+[A-Z]{2}` right after the
literal `BN`.  Leftmost-greedy backtracking collapses: with the maximal
first digit run (length `n`), either the maximal space run (length `s ≥ 1`)
is followed by a digit run (length `m`, forced maximal) and two letters,
or (any shorter split of the digit run being equivalent, needing `n ≥ 2`)
the two characters right after the digit run are letters.  Returns the
consumed characters after `BN`. -/
def matchPostcodeAt (cs : List Char) : Option (List Char) :=
  let n := (cs.takeWhile Char.isDigit).length
  if n = 0 then none
  else
    let rest1 := cs.drop n
    let s := (rest1.takeWhile isPySpace).length
    let rest2 := rest1.drop s
    let m := (rest2.takeWhile Char.isDigit).length
    if 1 ≤ s ∧ 1 ≤ m ∧ twoLetters (rest2.drop m) then some (cs.take (n + s + m + 2))
    else if 2 ≤ n ∧ twoLetters rest1 then some (cs.take (n + 2))
    else none
where
  twoLetters : List Char → Bool
    | a :: b :: _ => a.isAlpha && b.isAlpha
    | _ => false

/-- `re.search` scan for `BN\d+\s*\d+[A-Z]{2}` (IGNORECASE): try each start
position, and on success return `group(0).upper()`. -/
def findPostcode : List Char → Option (List Char)
  | [] => none
  | [_] => none
  | b :: n :: rest =>
    if b.toLower == 'b' && n.toLower == 'n' then
      match matchPostcodeAt rest with
      | some tl => some ((b :: n :: tl).map Char.toUpper)
      | none => findPostcode (n :: rest)
    else findPostcode (n :: rest)

/-- `extract_postcode` (lines 72-76). -/
def extract_postcode (address : String) : Option (List Char) :=
  findPostcode address.toList

/-- The `ward_map` dictionary lookup with default `[]` (lines 84-93). -/
def wardLookup (p : List Char) : List String :=
  if p = String.toList ("BN1") then ["West Hill & North Laine", "Regency", "Queens Park"]
  else if p = String.toList ("BN2") then
    ["Hanover & Elm Grove", "Kemptown", "Queens Park", "Moulsecoomb & Bevendean"]
  else if p = String.toList ("BN3") then
    ["Brunswick & Adelaide", "Goldsmid", "Central Hove", "Wish"]
  else if p = String.toList ("BN41") then ["Portslade"]
  else if p = String.toList ("BN42") then ["Southwick"]
  else []

/-- `get_ward_from_postcode` (lines 78-93): `None` for a falsy postcode
(empty list models both Python `None` and the empty string), else look up
the first three characters in `ward_map`. -/
def get_ward_from_postcode (postcode : List Char) : Option (List String) :=
  if postcode = [] then none else some (wardLookup (postcode.take 3))

/-- One landlord profile, the value type of the `landlords` defaultdict
(lines 37-44).  `wards` models the Python `set` as a duplicate-free list;
cells read from Excel may be `None`, hence the `Option` element types. -/
structure Landlord where
  name : String
  properties : List (Option String)
  wards : List (Option String)
  total_bedrooms : Nat
  property_count : Nat
  agent : String
deriving DecidableEq, Repr

/-- The defaultdict default value. -/
def defaultLandlord : Landlord :=
  { name := "", properties := [], wards := [], total_bedrooms := 0,
    property_count := 0, agent := "" }

/-- One spreadsheet row, restricted to the columns the fold reads
(applicant name, property address, ward name, bedrooms, agent name).
Falsy cells: the name and agent model Python `None`/`""` as `""`
(`if applicant_name` / `if agent` observe only truthiness); bedrooms models
`None`/`0` as `0` (`if bedrooms` observes only truthiness). -/
structure Row where
  applicant_name : String
  property_address : Option String
  ward : Option String
  bedrooms : Nat
  agent : String
deriving DecidableEq, Repr

/-- Python `set.add` on the duplicate-free list model. -/
def wardAdd (w : Option String) (ws : List (Option String)) : List (Option String) :=
  if ws.contains w then ws else ws ++ [w]

/-- The loop body of `load_landlord_database` for one row with a truthy
applicant name (lines 54-62): note the ward is added unconditionally. -/
def applyRow (l : Landlord) (r : Row) : Landlord :=
  { name := r.applicant_name,
    properties := l.properties ++ [r.property_address],
    wards := wardAdd r.ward l.wards,
    total_bedrooms :=
      if r.bedrooms ≠ 0 then l.total_bedrooms + r.bedrooms else l.total_bedrooms,
    property_count := l.property_count + 1,
    agent := if r.agent ≠ "" ∧ l.agent = "" then r.agent else l.agent }

/-- defaultdict access-and-update: update the entry in place, appending a
fresh default entry when the key is absent (Python dicts keep insertion
order). -/
def dbUpdate : List (String × Landlord) → String → Row → List (String × Landlord)
  | [], k, r => [(k, applyRow defaultLandlord r)]
  | (k0, v) :: rest, k, r =>
    if k0 = k then (k0, applyRow v r) :: rest else (k0, v) :: dbUpdate rest k r

/-- One iteration of the row loop (lines 46-62): rows with a falsy
applicant name are skipped. -/
def loadStep (db : List (String × Landlord)) (r : Row) : List (String × Landlord) :=
  if r.applicant_name = "" then db else dbUpdate db r.applicant_name r

/-- `load_landlord_database` (lines 32-70), as a fold over the spreadsheet
rows (the workbook read itself is the fallible external boundary, threaded
in `mainRun` below).  The final set-to-list conversion is the identity in
this model. -/
def load_landlord_database (rows : List Row) : List (String × Landlord) :=
  rows.foldl loadStep []

/-- First non-empty agent of a row sequence (empty string when there is
none); the value the first-wins accumulation converges to. -/
def firstAgent (rs : List Row) : String :=
  ((rs.map Row.agent).find? (fun a => a != "")).getD ""

/-- One listing, the normalized `prop` dict built in `fetch_properties`
(lines 212-222).  A falsy id (Python `None` or `""`) is modelled by `""`:
the run loop observes only its truthiness and set membership. -/
structure Listing where
  id : String
  title : String
  description : String
  price : String
  link : String
deriving DecidableEq, Repr

/-- One match entry as appended by `find_matching_landlords`
(lines 191-197). -/
structure MatchResult where
  landlord : String
  score : Nat
  reasons : List String
  portfolio_size : Nat
  agent : String
deriving DecidableEq, Repr

/-- The per-landlord scoring of `find_matching_landlords` (lines 170-188):
+30 per candidate ward found in the profile ward set, +20 for
`property_count >= 3`, +10 for a truthy agent, with one reason each. -/
def mkMatch (pw : List String) (nl : String × Landlord) : MatchResult :=
  let w := pw.foldl
    (fun acc ward =>
      if nl.2.wards.contains (some ward) then
        (acc.1 + 30, acc.2 ++ ["Has properties in " ++ ward])
      else acc)
    (0, [])
  let a :=
    if 3 ≤ nl.2.property_count then
      (w.1 + 20, w.2 ++ ["Active investor (" ++ Nat.repr nl.2.property_count ++ " properties)"])
    else w
  let g :=
    if nl.2.agent ≠ "" then (a.1 + 10, a.2 ++ ["Works with agent: " ++ nl.2.agent])
    else a
  { landlord := nl.1, score := g.1, reasons := g.2,
    portfolio_size := nl.2.property_count, agent := nl.2.agent }

/-- Candidate wards for a listing (lines 167-168): postcode from the title,
then the ward map; a missed postcode yields `[]`.  A successful postcode
match is never empty, so the `none` branch of `get_ward_from_postcode`
is dead here and `getD []` only discharges the `Option`. -/
def property_wards (title : String) : List String :=
  match extract_postcode title with
  | none => []
  | some pc => (get_ward_from_postcode pc).getD []

/-- The filtered, enumeration-ordered candidate list built by the landlord
loop (lines 170-197): one `mkMatch` per landlord, kept when the score meets
the threshold 20. -/
def matchCandidates (p : Listing) (landlords : List (String × Landlord)) :
    List MatchResult :=
  ((landlords.map (mkMatch (property_wards p.title))).filter
    (fun m => decide (20 ≤ m.score)))

/-- Stable descending insertion: keep elements with strictly larger score
in front, so earlier-enumerated elements precede later equal-score ones. -/
def insertDesc (m : MatchResult) : List MatchResult → List MatchResult
  | [] => [m]
  | x :: xs => if m.score < x.score then x :: insertDesc m xs else m :: x :: xs

/-- Stable sort descending by score.  Python `list.sort(key=..., reverse=True)`
is a stable descending sort; any stable descending sort computes the same
list, so insertion sort is a faithful model (line 200). -/
def sortDesc : List MatchResult → List MatchResult
  | [] => []
  | x :: xs => insertDesc x (sortDesc xs)

/-- `find_matching_landlords` (lines 163-201): score every landlord, keep
the threshold-passing candidates in enumeration order, sort stably by
descending score, truncate to the top 5. -/
def find_matching_landlords (p : Listing) (landlords : List (String × Landlord)) :
    List MatchResult :=
  (sortDesc (matchCandidates p landlords)).take 5

/-- The opportunity gating of the run loop (lines 344-354): low EPC first,
else the HMO score threshold 25. -/
def opportunityDecision (p : Listing) : Bool :=
  if is_low_epc (extract_epc_rating p.description) then true
  else if 25 ≤ (assess_hmo_potential p.title p.description).1 then true
  else false

/-- The mutable state of the run loop: the seen-id set (duplicate-free list
model of the Python set) and the `opportunities_found` counter. -/
structure RunState where
  seen : List String
  opportunities_found : Nat
deriving DecidableEq, Repr

/-- Python `set.add` on the seen-id set. -/
def pyInsert (x : String) (l : List String) : List String :=
  if l.contains x then l else l ++ [x]

/-- One iteration of the run loop (lines 331-373): skip falsy or seen ids
without touching the state; otherwise score, gate, match, notify (the
Telegram call composed with the alert formatting is abstracted by the
`notify` success predicate), count a found opportunity only when matches
exist and notification succeeds, and finally mark the id as seen. -/
def processProp (landlords : List (String × Landlord)) (notify : Listing → Bool)
    (st : RunState) (p : Listing) : RunState :=
  if p.id == "" || st.seen.contains p.id then st
  else
    let found :=
      if opportunityDecision p then
        if (find_matching_landlords p landlords).isEmpty then st.opportunities_found
        else if notify p then st.opportunities_found + 1 else st.opportunities_found
      else st.opportunities_found
    { seen := pyInsert p.id st.seen, opportunities_found := found }

/-- The analysis loop of `main` (lines 329-376) over the fetched listings,
starting from the loaded seen set and a zero counter. -/
def runMainLoop (landlords : List (String × Landlord)) (notify : Listing → Bool)
    (seen0 : List String) (props : List Listing) : RunState :=
  props.foldl (processProp landlords notify) ⟨seen0, 0⟩

/-- `main` (lines 308-382) with the fallible workbook read made explicit:
`load_landlord_database` has no exception handler (line 34) and neither
does `main` around it (line 315), so a failing portfolio source propagates
as `Except.error` and the run never reaches the loop or the final
`save_seen_properties`; on success the loop runs and the resulting seen
set is persisted (the `.ok` payload is exactly what `save_seen_properties`
receives). -/
def mainRun (portfolio : Except String (List Row)) (seen0 : List String)
    (props : List Listing) (notify : Listing → Bool) : Except String RunState :=
  match portfolio with
  | Except.error e => Except.error e
  | Except.ok rows => Except.ok (runMainLoop (load_landlord_database rows) notify seen0 props)

/-- Fixture: the two Alice rows of the spec example for claim C5. -/
def rowsAlice : List Row :=
  [{ applicant_name := "Alice", property_address := some ("1 X St"),
     ward := some ("WardA"), bedrooms := 3, agent := "AgentA" },
   { applicant_name := "Alice", property_address := some ("2 Y St"),
     ward := some ("WardA"), bedrooms := 2, agent := "" }]

/-- Fixture: the profile the fold builds from `rowsAlice`. -/
def aliceProfile : Landlord :=
  { name := "Alice", properties := [some ("1 X St"), some ("2 Y St")],
    wards := [some ("WardA")], total_bedrooms := 5, property_count := 2,
    agent := "AgentA" }

/-- Fixture: a row whose ward cell is absent, for the C5 counterexample. -/
def rowNoWard : Row :=
  { applicant_name := "Alice", property_address := none, ward := none,
    bedrooms := 0, agent := "" }

/-- Fixture: a listing used by several witnesses. -/
def sampleListing : Listing :=
  { id := "prop1", title := "3 bed house", description := "hmo student",
    price := "£300,000", link := "http://example.invalid/1" }

/-- Fixture: a three-property landlord, for the C4 and C8 witnesses. -/
def sampleLandlord : Landlord :=
  { name := "Big Owner", properties := [some ("a"), some ("b"), some ("c")],
    wards := [some ("Regency")], total_bedrooms := 9, property_count := 3,
    agent := "AgentX" }

/-! ### Lemmas about the EPC extractor -/

theorem isGradeChar_iff {c : Char} : isGradeChar c = true ↔ c ∈ gradeChars := by
  simp [isGradeChar]

theorem matchGrade_mem {l : List Char} {c : Char} (h : matchGrade l = some c) :
    c ∈ gradeChars := by
  cases l with
  | nil => simp [matchGrade] at h
  | cons a as =>
    simp only [matchGrade] at h
    split at h
    · cases h
      exact isGradeChar_iff.mp (by assumption)
    · cases h

theorem matchTail_mem {l : List Char} {c : Char} (h : matchTail l = some c) :
    c ∈ gradeChars := by
  cases l with
  | nil => simp [matchTail] at h
  | cons a rest =>
    simp only [matchTail] at h
    split at h
    · split at h
      · split at h
        · split at h
          · exact matchGrade_mem h
          · cases h
        · cases h
      · exact matchGrade_mem h
    · cases h

theorem matchAtEPC_mem {l : List Char} {c : Char} (h : matchAtEPC l = some c) :
    c ∈ gradeChars := by
  cases l with
  | nil => simp [matchAtEPC] at h
  | cons e l1 =>
    cases l1 with
    | nil => simp [matchAtEPC] at h
    | cons p l2 =>
      cases l2 with
      | nil => simp [matchAtEPC] at h
      | cons c3 rest =>
        simp only [matchAtEPC] at h
        split at h
        · exact matchTail_mem h
        · cases h

theorem findEPC_mem : ∀ {l : List Char} {c : Char}, findEPC l = some c → c ∈ gradeChars := by
  intro l
  induction l with
  | nil => intro c h; simp [findEPC] at h
  | cons a as ih =>
    intro c h
    simp only [findEPC] at h
    cases hm : matchAtEPC (a :: as) with
    | some g =>
      rw [hm] at h
      simp only [Option.some.injEq] at h
      exact h ▸ matchAtEPC_mem hm
    | none =>
      rw [hm] at h
      exact ih h

theorem grade_upper {c : Char} (h : c ∈ gradeChars) :
    c.toUpper ∈ (['A', 'B', 'C', 'D', 'E', 'F', 'G'] : List Char) := by
  fin_cases h <;> decide

theorem low_epc_iff (d : String) :
    is_low_epc (extract_epc_rating d) = true ↔
      ∃ g, extract_epc_rating d = some g ∧ g ∈ (["D", "E", "F", "G"] : List String) := by
  cases h : findEPC d.toList with
  | some c =>
    have h2 : findEPC d.data = some c := h
    have hx : extract_epc_rating d = some (String.singleton c.toUpper) := by
      simp [extract_epc_rating, h2]
    rw [hx]
    have hu := grade_upper (findEPC_mem h)
    generalize c.toUpper = u at hu hx ⊢
    fin_cases hu <;>
      · simp only [Option.some.injEq, exists_eq_left']
        decide
  | none =>
    have h2 : findEPC d.data = none := h
    have hx : extract_epc_rating d =
        if isSubstr (String.toList ("energy efficiency")) (lowerL d.toList) then
          some ("Unknown (mentioned)")
        else none := by
      simp [extract_epc_rating, h2]
    rw [hx]
    split
    · simp only [Option.some.injEq, exists_eq_left']
      decide
    · simp [is_low_epc]

/-- Claim C2: for every extracted EPC value, `is_low_epc` is true iff the
value is one of the confirmed grades D, E, F, G; it is false for grades
A, B, C, for the absent value, and for the sentinel produced by a bare
`energy efficiency` mention. -/
theorem claim_C2 (d : String) :
    (is_low_epc (extract_epc_rating d) = true ↔
      ∃ g, extract_epc_rating d = some g ∧ g ∈ (["D", "E", "F", "G"] : List String))
    ∧ (extract_epc_rating d = none → is_low_epc (extract_epc_rating d) = false)
    ∧ (extract_epc_rating d = some ("Unknown (mentioned)") →
        is_low_epc (extract_epc_rating d) = false)
    ∧ ∀ g, g ∈ (["A", "B", "C"] : List String) → extract_epc_rating d = some g →
        is_low_epc (extract_epc_rating d) = false := by
  refine ⟨low_epc_iff d, ?_, ?_, ?_⟩
  · intro h; rw [h]; rfl
  · intro h; rw [h]; rfl
  · intro g hg h
    rw [h]
    fin_cases hg <;> rfl

/-- Witness for claim C2 at a concrete description carrying a grade E. -/
theorem claim_C2_witness :
    is_low_epc (extract_epc_rating ("Needs work, EPC rating E.")) = true :=
  (claim_C2 ("Needs work, EPC rating E.")).1.mpr ⟨"E", by rfl, by decide⟩

/-- Helper: a grade-class character is not a whitespace character. -/
theorem grade_not_space {c : Char} (h : c ∈ gradeChars) : isPySpace c = false := by
  fin_cases h <;> rfl

/-- Helper: a grade-class character never lowercases to `r`. -/
theorem grade_not_r {c : Char} (h : c ∈ gradeChars) : ('r' == c.toLower) = false := by
  fin_cases h <;> rfl

/-- Helper: the EPC scan on a text starting with `EPC ` followed by a
grade-class character captures that character. -/
theorem findEPC_word {c : Char} (t : List Char) (hc : isGradeChar c = true) :
    findEPC ('E' :: 'P' :: 'C' :: ' ' :: c :: t) = some c := by
  have hmem : c ∈ gradeChars := isGradeChar_iff.mp hc
  have hns : isPySpace c = false := grade_not_space hmem
  have hdrop : (c :: t).dropWhile isPySpace = c :: t := by
    simp [List.dropWhile_cons, hns]
  have hlow : ratingChars.isPrefixOf (lowerL (c :: t)) = false := by
    simp [ratingChars, lowerL, List.isPrefixOf, grade_not_r hmem]
  have h1 : matchTail (' ' :: c :: t) = some c := by
    simp only [matchTail]
    rw [if_pos (show isPySpace ' ' = true from rfl), hdrop]
    rw [if_neg (by rw [hlow]; exact Bool.false_ne_true)]
    simp [matchGrade, hc]
  have h2 : matchAtEPC ('E' :: 'P' :: 'C' :: ' ' :: c :: t) = matchTail (' ' :: c :: t) :=
    rfl
  have h3 : matchAtEPC ('E' :: 'P' :: 'C' :: ' ' :: c :: t) = some c := h2.trans h1
  simp only [findEPC, h3]

/-- Claim C10: the EPC extractor accepts the first character of whatever
word follows the token `EPC` as the grade whenever it lies in the
case-insensitive A-G range, even when it is part of a longer word; in
particular `EPC certificate available`, which contains no standalone grade
letter, yields the confirmed (non-sentinel) grade C. -/
theorem claim_C10 :
    (∀ (c : Char) (t : List Char), isGradeChar c = true →
      extract_epc_rating (String.mk ('E' :: 'P' :: 'C' :: ' ' :: c :: t))
        = some (String.singleton c.toUpper))
    ∧ extract_epc_rating ("EPC certificate available") = some ("C")
    ∧ is_low_epc (extract_epc_rating ("EPC certificate available")) = false := by
  refine ⟨?_, by rfl, by rfl⟩
  intro c t hc
  have hfind : findEPC (String.mk ('E' :: 'P' :: 'C' :: ' ' :: c :: t)).data = some c :=
    findEPC_word t hc
  simp [extract_epc_rating, hfind]

/-- Witness for claim C10: the general part applied at the word
`dwelling`, whose first letter d is in the A-G range. -/
theorem claim_C10_witness :
    extract_epc_rating (String.mk ('E' :: 'P' :: 'C' :: ' ' :: 'd' ::
        String.toList ("welling ready"))) = some (String.singleton ('d').toUpper) :=
  claim_C10.1 'd' (String.toList ("welling ready")) (by decide)

/-- Claim C1: the run loop flags a listing as an actionable opportunity iff
its extracted EPC rating is a confirmed D/E/F/G grade or its HMO score is
at least 25; either criterion alone suffices. -/
theorem claim_C1 (p : Listing) :
    opportunityDecision p = true ↔
      ((∃ g, extract_epc_rating p.description = some g ∧
          g ∈ (["D", "E", "F", "G"] : List String))
        ∨ 25 ≤ (assess_hmo_potential p.title p.description).1) := by
  unfold opportunityDecision
  rw [← low_epc_iff p.description]
  by_cases h : is_low_epc (extract_epc_rating p.description) = true
  · simp [h]
  · have h0 : is_low_epc (extract_epc_rating p.description) = false :=
      Bool.eq_false_iff.mpr h
    by_cases hs : 25 ≤ (assess_hmo_potential p.title p.description).1
    · simp [h0, hs]
    · simp [h0, hs]

/-- Witness for claim C1: a listing whose description scores 40 from the
keywords hmo and student is flagged via the score criterion. -/
theorem claim_C1_witness : opportunityDecision sampleListing = true :=
  (claim_C1 sampleListing).mpr (Or.inr (by decide))

/-- Helper: the keyword fold adds, on top of any accumulator, exactly the
sum of the weights of the table entries whose keyword occurs in the text,
and appends exactly one reason per hit in table order. -/
theorem keywordFold_eq (tbl : List (String × Nat)) (d : List Char) (acc : Nat × List String) :
    tbl.foldl (keywordStep d) acc =
      (acc.1 + ((tbl.filter (fun kv => isSubstr kv.1.toList d)).map Prod.snd).sum,
       acc.2 ++ (tbl.filter (fun kv => isSubstr kv.1.toList d)).map
         (fun kv => mentionsReason kv.1)) := by
  induction tbl generalizing acc with
  | nil => simp
  | cons kv rest ih =>
    by_cases hk : isSubstr kv.1.toList d = true
    · simp only [List.foldl_cons, List.filter_cons, hk, if_pos, keywordStep]
      rw [ih]
      simp [Nat.add_assoc]
    · have hk0 : isSubstr kv.1.toList d = false := Bool.eq_false_iff.mpr hk
      simp only [List.foldl_cons, List.filter_cons, hk0, keywordStep,
        Bool.false_eq_true, if_false]
      exact ih acc

/-- Claim C6: the keyword component of the HMO score adds each keyword
weight exactly once when the keyword occurs as a substring of the
lowercase-folded description (regardless of occurrence count), appending
one reason per hit in keyword-table order, on top of any accumulated
score; in particular a description containing exactly the signals hmo and
student scores 30+10=40 with the two reasons in table order. -/
theorem claim_C6 (description : String) (acc : Nat × List String) :
    (hmo_keywords.foldl (keywordStep (lowerL description.toList)) acc =
      (acc.1 + ((hmo_keywords.filter
          (fun kv => isSubstr kv.1.toList (lowerL description.toList))).map Prod.snd).sum,
       acc.2 ++ (hmo_keywords.filter
          (fun kv => isSubstr kv.1.toList (lowerL description.toList))).map
          (fun kv => mentionsReason kv.1)))
    ∧ assess_hmo_potential ("") ("hmo student")
        = (40, [mentionsReason ("student"), mentionsReason ("hmo")]) := by
  exact ⟨keywordFold_eq hmo_keywords (lowerL description.toList) acc, by rfl⟩

/-- Claim C9: the lookup keys on only the first three characters of the
postcode, so the four-character table keys BN41 and BN42 are unreachable:
no input ever yields Portslade or Southwick, and every postcode beginning
with BN4 yields the empty ward list. -/
theorem claim_C9 (pc : List Char) :
    (∀ ws, get_ward_from_postcode pc = some ws →
      ¬ ("Portslade" ∈ ws) ∧ ¬ ("Southwick" ∈ ws))
    ∧ ((String.toList ("BN4")) <+: pc → get_ward_from_postcode pc = some []) := by
  constructor
  · intro ws hws
    have hpc : pc ≠ [] := by
      intro h0
      rw [h0] at hws
      simp [get_ward_from_postcode] at hws
    have hws2 : ws = wardLookup (pc.take 3) := by
      simp [get_ward_from_postcode, hpc] at hws
      exact hws.symm
    have hlen : (pc.take 3).length ≤ 3 := List.length_take_le 3 pc
    subst hws2
    unfold wardLookup
    split
    · decide
    · split
      · decide
      · split
        · decide
        · split
          · next h41 =>
            exfalso
            rw [h41] at hlen
            simp at hlen
          · split
            · next h42 =>
              exfalso
              rw [h42] at hlen
              simp at hlen
            · decide
  · intro hp
    obtain ⟨t, rfl⟩ := hp
    have htake : (String.toList ("BN4") ++ t).take 3 = String.toList ("BN4") := by
      simp [String.toList]
    have hne : (String.toList ("BN4") ++ t) ≠ [] := by simp [String.toList]
    simp only [get_ward_from_postcode, hne, if_neg, htake]
    simp [wardLookup]

/-- Witness for claim C9: the concrete postcode BN42 1AB maps to the empty
ward list, and a BN1 postcode maps to a list free of Portslade and
Southwick. -/
theorem claim_C9_witness :
    get_ward_from_postcode (String.toList ("BN42 1AB")) = some []
    ∧ ¬ ("Portslade" ∈ (["West Hill & North Laine", "Regency", "Queens Park"] : List String)) :=
  ⟨(claim_C9 (String.toList ("BN42 1AB"))).2 ⟨String.toList ("2 1AB"), by decide⟩,
   ((claim_C9 (String.toList ("BN1 2AB"))).1
      ["West Hill & North Laine", "Regency", "Queens Park"] (by rfl)).1⟩

/-! ### Lemmas about the matcher sort -/

theorem insertDesc_perm (m : MatchResult) (l : List MatchResult) :
    List.Perm (insertDesc m l) (m :: l) := by
  induction l with
  | nil => rfl
  | cons x xs ih =>
    simp only [insertDesc]
    split
    · exact (ih.cons x).trans (List.Perm.swap m x xs)
    · rfl

theorem sortDesc_perm (l : List MatchResult) : List.Perm (sortDesc l) l := by
  induction l with
  | nil => rfl
  | cons x xs ih =>
    exact (insertDesc_perm x (sortDesc xs)).trans (ih.cons x)

theorem insertDesc_pairwise (m : MatchResult) (l : List MatchResult)
    (h : l.Pairwise (fun a b => b.score ≤ a.score)) :
    (insertDesc m l).Pairwise (fun a b => b.score ≤ a.score) := by
  induction l with
  | nil => simp [insertDesc]
  | cons x xs ih =>
    rw [List.pairwise_cons] at h
    simp only [insertDesc]
    split
    · next hlt =>
      rw [List.pairwise_cons]
      constructor
      · intro y hy
        rcases List.mem_cons.mp ((insertDesc_perm m xs).mem_iff.mp hy) with hym | hyx
        · exact hym ▸ Nat.le_of_lt hlt
        · exact h.1 y hyx
      · exact ih h.2
    · next hge =>
      rw [List.pairwise_cons]
      constructor
      · intro y hy
        rcases List.mem_cons.mp hy with hyx | hyxs
        · exact hyx ▸ Nat.le_of_not_lt hge
        · exact Nat.le_trans (h.1 y hyxs) (Nat.le_of_not_lt hge)
      · exact List.pairwise_cons.mpr h

theorem sortDesc_pairwise (l : List MatchResult) :
    (sortDesc l).Pairwise (fun a b => b.score ≤ a.score) := by
  induction l with
  | nil => simp [sortDesc]
  | cons x xs ih => exact insertDesc_pairwise x (sortDesc xs) ih

theorem filter_insertDesc (s : Nat) (m : MatchResult) (l : List MatchResult) :
    (insertDesc m l).filter (fun x => x.score == s)
      = (m :: l).filter (fun x => x.score == s) := by
  induction l with
  | nil => rfl
  | cons x xs ih =>
    simp only [insertDesc]
    split
    · next hlt =>
      by_cases hm : m.score = s
      · have hx : (x.score == s) = false := by
          simp only [beq_eq_false_iff_ne]
          omega
        have hm1 : (m.score == s) = true := by simp [hm]
        simp only [List.filter_cons, hx, hm1, Bool.false_eq_true, if_false, if_true]
          at ih ⊢
        exact ih
      · have hm0 : (m.score == s) = false := by simp [hm]
        simp only [List.filter_cons, hm0, Bool.false_eq_true, if_false] at ih ⊢
        rw [ih]
    · rfl

theorem filter_sortDesc (s : Nat) (l : List MatchResult) :
    (sortDesc l).filter (fun x => x.score == s) = l.filter (fun x => x.score == s) := by
  induction l with
  | nil => rfl
  | cons x xs ih =>
    calc (insertDesc x (sortDesc xs)).filter (fun x => x.score == s)
        = (x :: sortDesc xs).filter (fun x => x.score == s) := filter_insertDesc s x _
      _ = (x :: xs).filter (fun x => x.score == s) := by
          simp only [List.filter_cons, ih]

/-- Claim C4: the matcher returns at most 5 results, every returned result
meets the minimum score threshold 20, the results are sorted descending by
score, and the equal-score results form a prefix of the equal-score
candidates in landlord-enumeration order (stability of the sort across the
top-5 truncation). -/
theorem claim_C4 (p : Listing) (landlords : List (String × Landlord)) :
    (find_matching_landlords p landlords).length ≤ 5
    ∧ (∀ m, m ∈ find_matching_landlords p landlords → 20 ≤ m.score)
    ∧ (find_matching_landlords p landlords).Pairwise (fun a b => b.score ≤ a.score)
    ∧ ∀ s : Nat, (find_matching_landlords p landlords).filter (fun x => x.score == s)
        <+: (matchCandidates p landlords).filter (fun x => x.score == s) := by
  refine ⟨List.length_take_le 5 _, ?_, ?_, ?_⟩
  · intro m hm
    have h1 : m ∈ sortDesc (matchCandidates p landlords) :=
      List.mem_of_mem_take hm
    have h2 : m ∈ matchCandidates p landlords :=
      (sortDesc_perm (matchCandidates p landlords)).mem_iff.mp h1
    have h3 := (List.mem_filter.mp h2).2
    exact of_decide_eq_true h3
  · exact (sortDesc_pairwise (matchCandidates p landlords)).sublist
      (List.take_sublist 5 _)
  · intro s
    simp only [find_matching_landlords]
    refine ⟨(List.filter (fun x => x.score == s)
      (List.drop 5 (sortDesc (matchCandidates p landlords)))), ?_⟩
    rw [← List.filter_append, List.take_append_drop, filter_sortDesc]

/-- Witness for claim C4: the threshold bound applied to the single result
produced for `sampleListing` against a one-landlord index. -/
theorem claim_C4_witness :
    20 ≤ (mkMatch (property_wards sampleListing.title) (("Big Owner", sampleLandlord))).score :=
  (claim_C4 sampleListing [("Big Owner", sampleLandlord)]).2.1
    (mkMatch (property_wards sampleListing.title) (("Big Owner", sampleLandlord)))
    (by decide)

/-- Helper: the match score of a landlord with at least three properties is
at least 20, whatever the candidate wards are. -/
theorem mkMatch_active_score (pw : List String) (nl : String × Landlord)
    (h : 3 ≤ nl.2.property_count) : 20 ≤ (mkMatch pw nl).score := by
  simp only [mkMatch, if_pos h]
  split
  · omega
  · omega

/-- Claim C8: every landlord profile with at least three properties scores
at least the minimum threshold 20 for every listing, so it is always a
match candidate regardless of ward overlap, present in the sorted candidate
list and excluded only by the top-5 truncation. -/
theorem claim_C8 (p : Listing) (landlords : List (String × Landlord))
    (nl : String × Landlord) (hmem : nl ∈ landlords)
    (hcount : 3 ≤ nl.2.property_count) :
    20 ≤ (mkMatch (property_wards p.title) nl).score
    ∧ mkMatch (property_wards p.title) nl ∈ matchCandidates p landlords
    ∧ mkMatch (property_wards p.title) nl ∈ sortDesc (matchCandidates p landlords) := by
  have hs := mkMatch_active_score (property_wards p.title) nl hcount
  have hc : mkMatch (property_wards p.title) nl ∈ matchCandidates p landlords := by
    refine List.mem_filter.mpr ⟨List.mem_map_of_mem (mkMatch (property_wards p.title)) hmem, ?_⟩
    exact decide_eq_true hs
  exact ⟨hs, hc, (sortDesc_perm (matchCandidates p landlords)).mem_iff.mpr hc⟩

/-- Witness for claim C8 at the three-property sample landlord. -/
theorem claim_C8_witness :
    mkMatch (property_wards sampleListing.title) (("Big Owner", sampleLandlord))
      ∈ matchCandidates sampleListing [("Big Owner", sampleLandlord)] :=
  (claim_C8 sampleListing [("Big Owner", sampleLandlord)] (("Big Owner", sampleLandlord))
    (by decide) (by decide)).2.1

/-! ### Lemmas about the run loop and the seen-id set -/

theorem contains_iff_mem {α : Type} [BEq α] [LawfulBEq α] {l : List α} {x : α} :
    l.contains x = true ↔ x ∈ l := by
  induction l with
  | nil => simp
  | cons a as ih =>
    simp only [List.contains_cons, Bool.or_eq_true, beq_iff_eq, List.mem_cons, ih]

theorem mem_pyInsert_self (x : String) (l : List String) : x ∈ pyInsert x l := by
  unfold pyInsert
  split
  · next h => exact contains_iff_mem.mp h
  · exact List.mem_append_right l (List.mem_singleton.mpr rfl)

theorem mem_pyInsert_of_mem {y : String} (x : String) (l : List String) (h : y ∈ l) :
    y ∈ pyInsert x l := by
  unfold pyInsert
  split
  · exact h
  · exact List.mem_append_left [x] h

theorem seen_mono (landlords : List (String × Landlord)) (notify : Listing → Bool) :
    ∀ (props : List Listing) (st : RunState) (x : String), x ∈ st.seen →
      x ∈ (props.foldl (processProp landlords notify) st).seen := by
  intro props
  induction props with
  | nil => intro st x hx; exact hx
  | cons p ps ih =>
    intro st x hx
    refine ih (processProp landlords notify st p) x ?_
    unfold processProp
    split
    · exact hx
    · exact mem_pyInsert_of_mem p.id st.seen hx

theorem ids_in_seen (landlords : List (String × Landlord)) (notify : Listing → Bool) :
    ∀ (props : List Listing) (st : RunState) (p : Listing), p ∈ props → p.id ≠ "" →
      p.id ∈ (props.foldl (processProp landlords notify) st).seen := by
  intro props
  induction props with
  | nil => intro st p hp; exact absurd hp (List.not_mem_nil p)
  | cons q ps ih =>
    intro st p hp hpid
    rcases List.mem_cons.mp hp with rfl | hps
    · refine seen_mono landlords notify ps (processProp landlords notify st p) p.id ?_
      unfold processProp
      split
      · next h =>
        simp only [Bool.or_eq_true, beq_iff_eq] at h
        rcases h with h1 | h2
        · exact absurd h1 hpid
        · exact contains_iff_mem.mp h2
      · exact mem_pyInsert_self p.id st.seen
    · exact ih (processProp landlords notify st q) p hps hpid

theorem run_skip (landlords : List (String × Landlord)) (notify : Listing → Bool) :
    ∀ (props : List Listing) (st : RunState),
      (∀ p ∈ props, p.id = "" ∨ st.seen.contains p.id = true) →
      props.foldl (processProp landlords notify) st = st := by
  intro props
  induction props with
  | nil => intro st _; rfl
  | cons q ps ih =>
    intro st h
    have hcond : (q.id == "" || st.seen.contains q.id) = true := by
      rcases h q (List.mem_cons_self q ps) with h1 | h2
      · simp [h1]
      · simp only [h2, Bool.or_true]
    have hq : processProp landlords notify st q = st := by
      unfold processProp
      rw [if_pos hcond]
    rw [List.foldl_cons, hq]
    exact ih st (fun p hp => h p (List.mem_cons_of_mem q hp))

/-- Claim C3: running the loop a second time on the same listings, starting
from the seen set persisted by the first run, reports zero opportunities and
leaves the seen set unchanged; every listing with a truthy id processed in
run 1 is in the persisted set (ids are added regardless of opportunity,
match, or notification outcome), so run 2 skips it before scoring. -/
theorem claim_C3 (landlords : List (String × Landlord)) (notify : Listing → Bool)
    (seen0 : List String) (props : List Listing) :
    (runMainLoop landlords notify (runMainLoop landlords notify seen0 props).seen
        props).opportunities_found = 0
    ∧ (runMainLoop landlords notify (runMainLoop landlords notify seen0 props).seen
        props).seen = (runMainLoop landlords notify seen0 props).seen
    ∧ ∀ p ∈ props, p.id ≠ "" → p.id ∈ (runMainLoop landlords notify seen0 props).seen := by
  have h3 : ∀ p ∈ props, p.id ≠ "" →
      p.id ∈ (runMainLoop landlords notify seen0 props).seen :=
    fun p hp hpid => ids_in_seen landlords notify props ⟨seen0, 0⟩ p hp hpid
  have hskip : ∀ p ∈ props, p.id = "" ∨
      ((runMainLoop landlords notify seen0 props).seen).contains p.id = true := by
    intro p hp
    by_cases hid : p.id = ""
    · exact Or.inl hid
    · exact Or.inr (contains_iff_mem.mpr (h3 p hp hid))
  have h2 : runMainLoop landlords notify (runMainLoop landlords notify seen0 props).seen
      props = ⟨(runMainLoop landlords notify seen0 props).seen, 0⟩ :=
    run_skip landlords notify props ⟨(runMainLoop landlords notify seen0 props).seen, 0⟩
      hskip
  rw [h2]
  exact ⟨rfl, rfl, h3⟩

/-- Witness for claim C3: the id of `sampleListing` is persisted by a run
over it. -/
theorem claim_C3_witness :
    sampleListing.id ∈ (runMainLoop [] (fun _ => true) [] [sampleListing]).seen :=
  (claim_C3 [] (fun _ => true) [] [sampleListing]).2.2 sampleListing
    (List.mem_singleton.mpr rfl) (by decide)

/-- Claim C7 counterexample: with a failing portfolio source (for example a
missing workbook file) the run does not continue with an empty portfolio
index — it aborts with the propagated error, so the loop never runs and the
dedup state is not persisted, refuting the claimed local recovery. -/
theorem claim_C7_cex :
    mainRun (Except.error ("Masterkey.xlsx missing")) [] [] (fun _ => false)
      = Except.error ("Masterkey.xlsx missing") := rfl

/-- Claim C7 (amended): when the portfolio data source fails, the run does
not recover: the error propagates out of `load_landlord_database` and
aborts `main` before any listing is processed, and the dedup state is never
persisted; only when the portfolio load succeeds does the run complete with
the loop result (whose seen set is what gets persisted). -/
theorem claim_C7 (e : String) (seen0 : List String) (props : List Listing)
    (notify : Listing → Bool) :
    (¬ ∃ r : RunState, mainRun (Except.error e) seen0 props notify = Except.ok r)
    ∧ ∀ rows : List Row, mainRun (Except.ok rows) seen0 props notify
        = Except.ok (runMainLoop (load_landlord_database rows) notify seen0 props) := by
  constructor
  · rintro ⟨r, hr⟩
    simp [mainRun] at hr
  · intro rows
    rfl

/-- Witness for claim C7: the success branch applied to an empty spreadsheet. -/
theorem claim_C7_witness :
    mainRun (Except.ok []) [] [sampleListing] (fun _ => true)
      = Except.ok (runMainLoop (load_landlord_database []) (fun _ => true) [] [sampleListing]) :=
  (claim_C7 ("") [] [sampleListing] (fun _ => true)).2 []

/-! ### Lemmas about the portfolio fold -/

theorem lookup_dbUpdate (db : List (String × Landlord)) (k0 k : String) (r : Row) :
    List.lookup k (dbUpdate db k0 r) =
      if k0 = k then some (applyRow ((List.lookup k db).getD defaultLandlord) r)
      else List.lookup k db := by
  induction db with
  | nil =>
    by_cases h : k0 = k
    · subst h
      simp [dbUpdate]
    · have hb : (k == k0) = false := beq_eq_false_iff_ne.mpr (fun he => h he.symm)
      rw [if_neg h]
      simp [dbUpdate, List.lookup_cons, hb]
  | cons kv rest ih =>
    obtain ⟨k1, v⟩ := kv
    simp only [dbUpdate]
    by_cases h1 : k1 = k0
    · rw [if_pos h1]
      subst h1
      by_cases h2 : k1 = k
      · subst h2
        simp [List.lookup_cons]
      · have hb : (k == k1) = false := beq_eq_false_iff_ne.mpr (fun he => h2 he.symm)
        simp [List.lookup_cons, hb, h2]
    · rw [if_neg h1]
      by_cases h2 : k1 = k
      · subst h2
        have hb : (k1 == k1) = true := beq_iff_eq.mpr rfl
        have hne : ¬ (k0 = k1) := fun he => h1 he.symm
        simp [List.lookup_cons, hb, hne]
      · have hb : (k == k1) = false := beq_eq_false_iff_ne.mpr (fun he => h2 he.symm)
        simp only [List.lookup_cons, hb, Bool.false_eq_true, if_false]
        exact ih

theorem lookup_foldl_loadStep (rows : List Row) (db : List (String × Landlord))
    (k : String) (hk : k ≠ "") :
    List.lookup k (rows.foldl loadStep db) =
      (rows.filter (fun r => r.applicant_name == k)).foldl
        (fun o r => some (applyRow (o.getD defaultLandlord) r)) (List.lookup k db) := by
  induction rows generalizing db with
  | nil => rfl
  | cons r rest ih =>
    rw [List.foldl_cons, ih (loadStep db r)]
    by_cases hname : r.applicant_name = ""
    · have hfk : (r.applicant_name == k) = false := by
        rw [hname]
        exact beq_eq_false_iff_ne.mpr (fun h => hk h.symm)
      rw [List.filter_cons]
      simp only [hfk, Bool.false_eq_true, if_false]
      congr 1
      simp [loadStep, hname]
    · by_cases heq : r.applicant_name = k
      · have hfk : (r.applicant_name == k) = true := beq_iff_eq.mpr heq
        rw [List.filter_cons]
        simp only [hfk, if_true]
        rw [List.foldl_cons]
        congr 1
        simp only [loadStep]
        rw [if_neg hname, lookup_dbUpdate db r.applicant_name k r, if_pos heq]
      · have hfk : (r.applicant_name == k) = false := beq_eq_false_iff_ne.mpr heq
        rw [List.filter_cons]
        simp only [hfk, Bool.false_eq_true, if_false]
        congr 1
        simp only [loadStep]
        rw [if_neg hname, lookup_dbUpdate db r.applicant_name k r, if_neg heq]

theorem foldl_oneStep_some (rs : List Row) (l : Landlord) :
    rs.foldl (fun o r => some (applyRow (o.getD defaultLandlord) r)) (some l)
      = some (rs.foldl applyRow l) := by
  induction rs generalizing l with
  | nil => rfl
  | cons r rest ih =>
    rw [List.foldl_cons, List.foldl_cons]
    exact ih (applyRow l r)

theorem count_foldl_applyRow (rs : List Row) (l : Landlord) :
    (rs.foldl applyRow l).property_count = l.property_count + rs.length := by
  induction rs generalizing l with
  | nil => simp
  | cons r rest ih =>
    rw [List.foldl_cons, ih]
    simp only [applyRow, List.length_cons]
    omega

theorem agent_foldl_applyRow (rs : List Row) (l : Landlord) :
    (rs.foldl applyRow l).agent = if l.agent = "" then firstAgent rs else l.agent := by
  induction rs generalizing l with
  | nil =>
    simp only [List.foldl_nil, firstAgent, List.map_nil, List.find?_nil, Option.getD_none]
    split
    · next h => exact h
    · rfl
  | cons r rest ih =>
    rw [List.foldl_cons, ih]
    by_cases hl : l.agent = ""
    · by_cases hr : r.agent = ""
      · have ha : (applyRow l r).agent = l.agent := by simp [applyRow, hr]
        rw [ha, if_pos hl, if_pos hl]
        have hf : (r.agent != "") = false := by simp [hr]
        simp [firstAgent, hf]
      · have ha : (applyRow l r).agent = r.agent := by simp [applyRow, hr, hl]
        rw [ha, if_neg hr, if_pos hl]
        have hf : (r.agent != "") = true := by simp [hr]
        simp [firstAgent, hf]
    · have ha : (applyRow l r).agent = l.agent := by simp [applyRow, hl]
      rw [ha, if_neg hl, if_neg hl]

theorem mem_wardAdd {x w : Option String} {ws : List (Option String)} :
    x ∈ wardAdd w ws ↔ x ∈ ws ∨ x = w := by
  unfold wardAdd
  split
  · next h =>
    constructor
    · exact Or.inl
    · rintro (hx | rfl)
      · exact hx
      · exact contains_iff_mem.mp h
  · simp [List.mem_append]

theorem nodup_wardAdd {w : Option String} {ws : List (Option String)}
    (h : ws.Nodup) : (wardAdd w ws).Nodup := by
  unfold wardAdd
  split
  · exact h
  · next hc =>
    have hw : w ∉ ws := fun hmem => hc (contains_iff_mem.mpr hmem)
    simp [List.nodup_append, h, hw]

theorem wards_foldl_nodup (rs : List Row) (l : Landlord) (h : l.wards.Nodup) :
    (rs.foldl applyRow l).wards.Nodup := by
  induction rs generalizing l with
  | nil => exact h
  | cons r rest ih =>
    rw [List.foldl_cons]
    exact ih (applyRow l r) (nodup_wardAdd h)

theorem wards_foldl_mem (rs : List Row) (l : Landlord) (x : Option String) :
    x ∈ (rs.foldl applyRow l).wards ↔ x ∈ l.wards ∨ ∃ r ∈ rs, r.ward = x := by
  induction rs generalizing l with
  | nil => simp
  | cons r rest ih =>
    rw [List.foldl_cons, ih]
    have hw : (applyRow l r).wards = wardAdd r.ward l.wards := rfl
    rw [hw, mem_wardAdd]
    constructor
    · rintro ((hx | hw2) | ⟨r2, hr2, hw2⟩)
      · exact Or.inl hx
      · exact Or.inr ⟨r, List.mem_cons_self r rest, hw2.symm⟩
      · exact Or.inr ⟨r2, List.mem_cons_of_mem r hr2, hw2⟩
    · rintro (hx | ⟨r2, hr2, hw2⟩)
      · exact Or.inl (Or.inl hx)
      · rcases List.mem_cons.mp hr2 with rfl | h2
        · exact Or.inl (Or.inr hw2.symm)
        · exact Or.inr ⟨r2, h2, hw2⟩

theorem load_filter_empty (rows : List Row) :
    load_landlord_database (rows.filter (fun r => r.applicant_name != "")) =
      load_landlord_database rows := by
  unfold load_landlord_database
  have h : ∀ db : List (String × Landlord),
      (rows.filter (fun r => r.applicant_name != "")).foldl loadStep db
        = rows.foldl loadStep db := by
    induction rows with
    | nil => intro db; rfl
    | cons r rest ih =>
      intro db
      by_cases hname : r.applicant_name = ""
      · have hf : (r.applicant_name != "") = false := by simp [hname]
        rw [List.filter_cons]
        simp only [hf, Bool.false_eq_true, if_false]
        rw [List.foldl_cons]
        have hstep : loadStep db r = db := by simp [loadStep, hname]
        rw [hstep]
        exact ih db
      · have hf : (r.applicant_name != "") = true := by simp [hname]
        rw [List.filter_cons]
        simp only [hf, if_true]
        rw [List.foldl_cons, List.foldl_cons]
        exact ih (loadStep db r)
  exact h []

/-- Claim C5 counterexample: a single row whose ward cell is absent.  The
claim states that ward values of none/empty are not added to the ward set,
but `load_landlord_database` adds the ward unconditionally (line 57), so
the resulting ward set is `[none]`, not the empty set. -/
theorem claim_C5_cex :
    List.lookup ("Alice") (load_landlord_database [rowNoWard])
      = some { name := "Alice", properties := [none], wards := [none],
               total_bedrooms := 0, property_count := 1, agent := "" } := rfl

/-- Claim C5 (amended): folding portfolio rows, rows with an empty or
absent identity contribute nothing; each profile's `property_count` equals
the number of rows with that identity; the ward set is deduplicated but
EVERY row's ward value is added to it, including none/empty ones (the code
does not guard the `set.add`); and the agent is the first non-empty agent
encountered for that identity. -/
theorem claim_C5 (rows : List Row) (k : String) (hk : k ≠ "") :
    (load_landlord_database (rows.filter (fun r => r.applicant_name != ""))
        = load_landlord_database rows)
    ∧ (rows.filter (fun r => r.applicant_name == k) = [] →
        List.lookup k (load_landlord_database rows) = none)
    ∧ ∀ l, List.lookup k (load_landlord_database rows) = some l →
        l.property_count = (rows.filter (fun r => r.applicant_name == k)).length
        ∧ l.wards.Nodup
        ∧ (∀ w, w ∈ l.wards ↔ ∃ r ∈ rows, r.applicant_name = k ∧ r.ward = w)
        ∧ l.agent = firstAgent (rows.filter (fun r => r.applicant_name == k)) := by
  have hbase : List.lookup k (load_landlord_database rows)
      = (rows.filter (fun r => r.applicant_name == k)).foldl
          (fun o r => some (applyRow (o.getD defaultLandlord) r)) none := by
    have h := lookup_foldl_loadStep rows [] k hk
    simpa [load_landlord_database] using h
  refine ⟨load_filter_empty rows, ?_, ?_⟩
  · intro hnil
    rw [hbase, hnil]
    rfl
  · intro l hl
    rw [hbase] at hl
    cases hkr : rows.filter (fun r => r.applicant_name == k) with
    | nil =>
      rw [hkr] at hl
      cases hl
    | cons r0 rest =>
      rw [hkr, List.foldl_cons, foldl_oneStep_some] at hl
      have hl2 : l = rest.foldl applyRow (applyRow defaultLandlord r0) :=
        (Option.some.inj hl).symm
      subst hl2
      have hmemk : ∀ r, r ∈ rows ∧ r.applicant_name = k ↔ r ∈ r0 :: rest := by
        intro r
        rw [← hkr]
        constructor
        · intro ⟨h1, h2⟩
          exact List.mem_filter.mpr ⟨h1, beq_iff_eq.mpr h2⟩
        · intro h
          have h2 := List.mem_filter.mp h
          exact ⟨h2.1, beq_iff_eq.mp h2.2⟩
      refine ⟨?_, ?_, ?_, ?_⟩
      · rw [count_foldl_applyRow]
        have h0 : (applyRow defaultLandlord r0).property_count = 1 := rfl
        rw [h0]
        simp [Nat.add_comm]
      · refine wards_foldl_nodup rest (applyRow defaultLandlord r0) ?_
        have hw : (applyRow defaultLandlord r0).wards = [r0.ward] := rfl
        rw [hw]
        exact List.nodup_singleton r0.ward
      · intro w
        rw [wards_foldl_mem]
        have hw : (applyRow defaultLandlord r0).wards = [r0.ward] := rfl
        rw [hw]
        constructor
        · rintro (hmem | ⟨r2, hr2, hw2⟩)
          · have hw3 : w = r0.ward := List.mem_singleton.mp hmem
            have h4 := (hmemk r0).mpr (List.mem_cons_self r0 rest)
            exact ⟨r0, h4.1, h4.2, hw3.symm⟩
          · have hmem2 := (hmemk r2).mpr (List.mem_cons_of_mem r0 hr2)
            exact ⟨r2, hmem2.1, hmem2.2, hw2⟩
        · rintro ⟨r2, hr2, hname2, hw2⟩
          have := (hmemk r2).mp ⟨hr2, hname2⟩
          rcases List.mem_cons.mp this with rfl | h3
          · exact Or.inl (List.mem_singleton.mpr hw2.symm)
          · exact Or.inr ⟨r2, h3, hw2⟩
      · rw [agent_foldl_applyRow]
        by_cases hr0 : r0.agent = ""
        · have ha2 : (applyRow defaultLandlord r0).agent = "" := by
            simp [applyRow, defaultLandlord, hr0]
          rw [ha2, if_pos rfl]
          have hf : (r0.agent != "") = false := by simp [hr0]
          simp [firstAgent, hf]
        · have ha2 : (applyRow defaultLandlord r0).agent = r0.agent := by
            simp [applyRow, defaultLandlord, hr0]
          rw [ha2, if_neg hr0]
          have hf : (r0.agent != "") = true := by simp [hr0]
          simp [firstAgent, hf]

/-- Witness for claim C5: the Alice fixture from the spec example, giving
`property_count = 2`, first-wins agent `AgentA`, and a deduplicated ward
set. -/
theorem claim_C5_witness :
    aliceProfile.property_count
        = (rowsAlice.filter (fun r => r.applicant_name == "Alice")).length
    ∧ aliceProfile.wards.Nodup
    ∧ aliceProfile.agent
        = firstAgent (rowsAlice.filter (fun r => r.applicant_name == "Alice")) :=
  have h := (claim_C5 rowsAlice ("Alice") (by decide)).2.2 aliceProfile (by rfl)
  ⟨h.1, h.2.1, h.2.2.2⟩
